import Mathlib

/-!
Shallow embedding of the synchronization primitives of src/kern/thread/synch.c:
counting semaphores (P and V), a reentrant mutual-exclusion lock, and
condition variables over a FIFO queue.

Modelling conventions:
- ThreadId is Nat; the C pointer curthread is a ThreadId (never null while a
  thread runs, so the lock owner field is Option ThreadId with none for NULL).
- C int fields are Int (signed overflow in C is undefined behaviour and is
  outside the model).
- A fatal assert is a distinguished result (Option none, or a fatal
  constructor): the kernel halts, no state is returned.
- thread_sleep(channel) suspends the caller on a channel; thread_wakeup
  (channel) makes every thread sleeping on that channel runnable.  For the
  semaphore the sleepers on the semaphore channel are kept as a list; for the
  lock a blocked result means the caller slept on the lock channel; for the
  condition variable each waiter sleeps on its own identity, so a wakeup is
  targeted and is recorded as the identity woken.
- The splhigh/splx interrupt masking makes each code region between sleeps
  atomic; each such region is one step function.
-/

namespace Synch

/-- Thread identity, as used for curthread in the source. -/
abbrev ThreadId := Nat

/-! ## Lock (struct lock of synch.c) -/

/-- The lock state: status (0 free, 1 held), curthread_with_lock (NULL is
none), lock_counter, as in struct lock used by synch.c. -/
structure Lock where
  status : Int
  curthread_with_lock : Option ThreadId
  lock_counter : Int
  deriving Repr, DecidableEq

/-- lock_create: status 0 (free), curthread_with_lock NULL, lock_counter 0.
The name field and allocation failure are outside the state model. -/
def lock_create : Lock :=
  { status := 0, curthread_with_lock := none, lock_counter := 0 }

/-- Result of one atomic region of lock_acquire: either the call completes
with a new lock state, or the caller sleeps on the lock channel with the
lock state unchanged. -/
inductive AcqStep where
  | done (s : Lock)
  | blocked
  deriving Repr, DecidableEq

/-- The resumption of lock_acquire after a wakeup: the while loop re-checks
status; if status is still 1 the thread sleeps again, otherwise it installs
itself: curthread_with_lock = curthread, lock_counter incremented, status 1. -/
def lock_acquire_resume (t : ThreadId) (s : Lock) : AcqStep :=
  if s.status = 1 then AcqStep.blocked
  else AcqStep.done { status := 1, curthread_with_lock := some t,
                      lock_counter := s.lock_counter + 1 }

/-- Entry of lock_acquire by thread t with the in_interrupt flag given: the
source performs no in_interrupt check (the flag is not read).  If curthread
equals curthread_with_lock the counter is incremented and the call returns;
otherwise it proceeds to the while loop. -/
def lock_acquire_entry (_inIntr : Bool) (t : ThreadId) (s : Lock) : AcqStep :=
  if s.curthread_with_lock = some t then
    AcqStep.done { s with lock_counter := s.lock_counter + 1 }
  else
    lock_acquire_resume t s

/-- lock_release by thread t: if curthread differs from curthread_with_lock
the function restores the interrupt level and returns (no field changed, no
wakeup).  Otherwise lock_counter is decremented; when it reaches 0 the owner
is cleared, status is set to 0, and thread_wakeup(lock) is called.  The Bool
records whether thread_wakeup was called on the lock channel. -/
def lock_release (t : ThreadId) (s : Lock) : Lock × Bool :=
  if s.curthread_with_lock ≠ some t then (s, false)
  else if s.lock_counter - 1 = 0 then
    ({ status := 0, curthread_with_lock := none,
       lock_counter := s.lock_counter - 1 }, true)
  else
    ({ s with lock_counter := s.lock_counter - 1 }, false)

/-- lock_do_i_hold: whether curthread_with_lock equals curthread. -/
def lock_do_i_hold (t : ThreadId) (s : Lock) : Bool :=
  s.curthread_with_lock = some t

/-- One observable lock operation: an acquire entry, an acquire resumption
after a wakeup, or a release, each by some thread. -/
inductive LockOp where
  | acqE (t : ThreadId)
  | acqR (t : ThreadId)
  | rel (t : ThreadId)
  deriving Repr, DecidableEq

/-- The lock state after one operation (a blocked acquire leaves the state
unchanged: the caller is asleep on the lock channel). -/
def lock_step (s : Lock) : LockOp → Lock
  | LockOp.acqE t =>
      match lock_acquire_entry false t s with
      | AcqStep.done s2 => s2
      | AcqStep.blocked => s
  | LockOp.acqR t =>
      match lock_acquire_resume t s with
      | AcqStep.done s2 => s2
      | AcqStep.blocked => s
  | LockOp.rel t => (lock_release t s).1

/-- The lock state reached from lock_create by a sequence of operations. -/
def lock_run (ops : List LockOp) : Lock :=
  ops.foldl lock_step lock_create

/-- The invariant of the lock spec: lock_counter is 0 exactly when the lock
has no owner, and never negative. -/
def LockWeakInv (s : Lock) : Prop :=
  (s.lock_counter = 0 ↔ s.curthread_with_lock = none) ∧ 0 ≤ s.lock_counter

/-- The full reachability invariant of struct lock: the weak invariant plus
the correspondence between status and owner. -/
def LockInv (s : Lock) : Prop :=
  (s.lock_counter = 0 ↔ s.curthread_with_lock = none) ∧
  0 ≤ s.lock_counter ∧
  (s.curthread_with_lock = none → s.status = 0) ∧
  (s.curthread_with_lock ≠ none → s.status = 1)

instance (s : Lock) : Decidable (LockWeakInv s) := by
  unfold LockWeakInv; infer_instance

instance (s : Lock) : Decidable (LockInv s) := by
  unfold LockInv; infer_instance

/-- Iterated lock_release by one thread (the state component only). -/
def releaseN (t : ThreadId) : Nat → Lock → Lock
  | 0, s => s
  | n + 1, s => releaseN t n (lock_release t s).1

/-! ## Semaphore (struct semaphore of synch.c) -/

/-- The semaphore state: the count field of struct semaphore, together with
the threads currently sleeping on the semaphore channel (the scheduler state
that thread_sleep(sem) and thread_wakeup(sem) act on).  The name field and
allocation failure are outside the state model. -/
structure SemState where
  count : Int
  sleepers : List ThreadId
  deriving Repr, DecidableEq

/-- sem_create asserts initial_count is not negative (fatal otherwise) and
returns a semaphore with count = initial_count and no sleeper. -/
def sem_create (initial_count : Int) : Option SemState :=
  if 0 ≤ initial_count then some { count := initial_count, sleepers := [] }
  else none

/-- Result of one atomic region of P: a fatal assert, the caller going to
sleep on the semaphore channel, or the call returning. -/
inductive PStep where
  | fatal
  | blocked (s : SemState)
  | returned (s : SemState)
  deriving Repr, DecidableEq

/-- The resumption of P after a wakeup: the while loop re-checks the count;
if it is still 0 the thread sleeps again on the semaphore channel, otherwise
the assert count > 0 runs and the count is decremented. -/
def P_resume (t : ThreadId) (s : SemState) : PStep :=
  if s.count = 0 then PStep.blocked { s with sleepers := s.sleepers ++ [t] }
  else if 0 < s.count then PStep.returned { s with count := s.count - 1 }
  else PStep.fatal

/-- Entry of P by thread t: assert(in_interrupt == 0) is fatal from interrupt
context before any state is touched; then the while loop runs. -/
def P_step (inIntr : Bool) (t : ThreadId) (s : SemState) : PStep :=
  if inIntr then PStep.fatal
  else P_resume t s

/-- V by any thread: the count is incremented, assert(count > 0) runs, and
thread_wakeup(sem) makes every thread sleeping on the semaphore channel
runnable (the sleeper list empties).  none is the fatal assert. -/
def V_step (s : SemState) : Option SemState :=
  if 0 < s.count + 1 then some { count := s.count + 1, sleepers := [] }
  else none

/-- One observable semaphore operation: a P attempt (entry or re-check after
a wakeup) by some thread, or a V. -/
inductive SemOp where
  | pOp (t : ThreadId)
  | vOp
  deriving Repr, DecidableEq

/-- The semaphore state after a sequence of operations from a normal (non
interrupt) context; none when some assert fired. -/
def sem_run (s : SemState) : List SemOp → Option SemState
  | [] => some s
  | SemOp.pOp t :: rest =>
      match P_step false t s with
      | PStep.fatal => none
      | PStep.blocked s2 => sem_run s2 rest
      | PStep.returned s2 => sem_run s2 rest
  | SemOp.vOp :: rest =>
      match V_step s with
      | none => none
      | some s2 => sem_run s2 rest

/-! ## Condition variable (struct cv of synch.c) -/

/-- The condition variable state: the wait queue q of struct cv, a FIFO list
of thread identities (q_addtail appends at the tail, q_remhead removes the
head).  The name field and allocation failure are outside the state model. -/
structure CV where
  q : List ThreadId
  deriving Repr, DecidableEq

/-- cv_create returns a cv with an empty queue. -/
def cv_create : CV := { q := [] }

/-- Result of the first atomic region of cv_wait: a fatal assert, or the
caller enqueued, the lock released (with the wakeup flag of lock_release),
and the caller asleep on its own identity as the channel. -/
inductive CvWaitStep where
  | fatal
  | sleeping (cv : CV) (lk : Lock) (woke : Bool)
  deriving Repr, DecidableEq

/-- cv_wait by thread t up to its thread_sleep(curthread): the source does
not read the in_interrupt flag.  assert(lock_do_i_hold(lock)) is fatal when
the caller does not hold the lock; q_addtail on the queue with curthread
yields the result code r, and assert(r == 0) is fatal when r is nonzero
(the enqueue did not happen); otherwise the caller is appended to the queue,
lock_release runs, and the caller sleeps on its own identity. -/
def cv_wait_enter (_inIntr : Bool) (t : ThreadId) (r : Int) (lk : Lock)
    (cv : CV) : CvWaitStep :=
  if ¬ lock_do_i_hold t lk then CvWaitStep.fatal
  else if r ≠ 0 then CvWaitStep.fatal
  else
    CvWaitStep.sleeping { q := cv.q ++ [t] } (lock_release t lk).1
      (lock_release t lk).2

/-- cv_signal by thread t: assert(lock_do_i_hold(lock)) is fatal (none) when
the caller does not hold the lock; otherwise, if the queue is non-empty,
q_remhead removes the head and thread_wakeup wakes exactly that thread (the
channel is that thread identity).  Returns the new cv and the identity
woken, if any. -/
def cv_signal (t : ThreadId) (lk : Lock) (cv : CV) :
    Option (CV × Option ThreadId) :=
  if lock_do_i_hold t lk then
    match cv.q with
    | [] => some (cv, none)
    | h :: rest => some ({ q := rest }, some h)
  else none

/-- The while loop of cv_broadcast: while the queue is non-empty, wake
q_remhead.  Returns the identities woken, in order, and the final queue. -/
def cv_broadcast_loop : List ThreadId → List ThreadId × List ThreadId
  | [] => ([], [])
  | h :: rest =>
      let p := cv_broadcast_loop rest
      (h :: p.1, p.2)

/-- cv_broadcast by thread t: assert(lock_do_i_hold(lock)) is fatal (none)
when the caller does not hold the lock; otherwise the loop drains the queue,
waking each removed head individually.  Returns the new cv and the list of
identities woken in order. -/
def cv_broadcast (t : ThreadId) (lk : Lock) (cv : CV) :
    Option (CV × List ThreadId) :=
  if lock_do_i_hold t lk then
    some ({ q := (cv_broadcast_loop cv.q).2 }, (cv_broadcast_loop cv.q).1)
  else none

/-! ## Helper lemmas: the lock invariant is inductive -/

/-- lock_create satisfies the full lock invariant. -/
theorem lockInv_create : LockInv lock_create := by
  refine ⟨by simp [lock_create], by simp [lock_create], ?_, ?_⟩ <;>
    simp [lock_create]

/-- A completed lock_acquire preserves the full lock invariant. -/
theorem lockInv_acquire_entry {i : Bool} {t : ThreadId} {s s2 : Lock}
    (h : LockInv s) (he : lock_acquire_entry i t s = AcqStep.done s2) :
    LockInv s2 := by
  obtain ⟨h1, h2, h3, h4⟩ := h
  unfold lock_acquire_entry lock_acquire_resume at he
  by_cases ho : s.curthread_with_lock = some t
  · simp only [ho, if_pos rfl] at he
    cases he
    refine ⟨?_, ?_, ?_, ?_⟩ <;> simp_all <;> omega
  · simp only [if_neg ho] at he
    by_cases hs : s.status = 1
    · simp [hs] at he
    · simp only [if_neg hs] at he
      cases he
      have hn : s.curthread_with_lock = none := by
        by_contra hc
        exact hs (h4 hc)
      have hc0 : s.lock_counter = 0 := h1.mpr hn
      refine ⟨?_, ?_, ?_, ?_⟩ <;> simp_all

/-- A completed resumption of lock_acquire preserves the full lock
invariant. -/
theorem lockInv_acquire_resume {t : ThreadId} {s s2 : Lock}
    (h : LockInv s) (he : lock_acquire_resume t s = AcqStep.done s2) :
    LockInv s2 := by
  obtain ⟨h1, h2, h3, h4⟩ := h
  unfold lock_acquire_resume at he
  by_cases hs : s.status = 1
  · simp [hs] at he
  · simp only [if_neg hs] at he
    cases he
    have hn : s.curthread_with_lock = none := by
      by_contra hc
      exact hs (h4 hc)
    have hc0 : s.lock_counter = 0 := h1.mpr hn
    refine ⟨?_, ?_, ?_, ?_⟩ <;> simp_all

/-- lock_release preserves the full lock invariant. -/
theorem lockInv_release {t : ThreadId} {s : Lock}
    (h : LockInv s) : LockInv (lock_release t s).1 := by
  obtain ⟨h1, h2, h3, h4⟩ := h
  unfold lock_release
  by_cases ho : s.curthread_with_lock ≠ some t
  · simp only [if_pos ho]
    exact ⟨h1, h2, h3, h4⟩
  · push_neg at ho
    have hne : s.curthread_with_lock ≠ none := by simp [ho]
    have hc : s.lock_counter ≠ 0 := fun hcc => hne (h1.mp hcc)
    rw [if_neg (by simp [ho])]
    by_cases hz : s.lock_counter - 1 = 0
    · rw [if_pos hz]
      exact ⟨by simp [hz], by simp [hz], by simp, by simp⟩
    · rw [if_neg hz]
      refine ⟨?_, ?_, ?_, ?_⟩
      · simp_all
      · simp_all; omega
      · simp_all
      · simp_all

/-- Every lock operation preserves the full lock invariant. -/
theorem lockInv_step {s : Lock} (op : LockOp) (h : LockInv s) :
    LockInv (lock_step s op) := by
  cases op with
  | acqE t =>
      simp only [lock_step]
      cases he : lock_acquire_entry false t s with
      | done s2 => exact lockInv_acquire_entry h he
      | blocked => exact h
  | acqR t =>
      simp only [lock_step]
      cases he : lock_acquire_resume t s with
      | done s2 => exact lockInv_acquire_resume h he
      | blocked => exact h
  | rel t =>
      simp only [lock_step]
      exact lockInv_release h

/-- Every state reached from lock_create satisfies the full lock
invariant. -/
theorem lockInv_run (ops : List LockOp) : LockInv (lock_run ops) := by
  suffices hgen : ∀ (l : List LockOp) (s : Lock),
      LockInv s → LockInv (l.foldl lock_step s) by
    exact hgen ops lock_create lockInv_create
  intro l
  induction l with
  | nil => intro s h; exact h
  | cons op rest ih =>
      intro s h
      exact ih (lock_step s op) (lockInv_step op h)

/-- The full invariant implies the weak one stated in the spec. -/
theorem lockWeakInv_of_lockInv {s : Lock} (h : LockInv s) : LockWeakInv s :=
  ⟨h.1, h.2.1⟩

/-- A completed lock_acquire preserves the weak lock invariant. -/
theorem lockWeakInv_acquire_entry {i : Bool} {t : ThreadId} {s s2 : Lock}
    (h : LockWeakInv s) (he : lock_acquire_entry i t s = AcqStep.done s2) :
    LockWeakInv s2 := by
  obtain ⟨h1, h2⟩ := h
  unfold lock_acquire_entry lock_acquire_resume at he
  by_cases ho : s.curthread_with_lock = some t
  · rw [if_pos ho] at he
    cases he
    refine ⟨?_, ?_⟩ <;> simp [ho] <;> omega
  · rw [if_neg ho] at he
    by_cases hs : s.status = 1
    · rw [if_pos hs] at he
      simp at he
    · rw [if_neg hs] at he
      cases he
      refine ⟨?_, ?_⟩ <;> simp <;> omega

/-- A completed resumption of lock_acquire preserves the weak lock
invariant. -/
theorem lockWeakInv_acquire_resume {t : ThreadId} {s s2 : Lock}
    (h : LockWeakInv s) (he : lock_acquire_resume t s = AcqStep.done s2) :
    LockWeakInv s2 := by
  obtain ⟨h1, h2⟩ := h
  unfold lock_acquire_resume at he
  by_cases hs : s.status = 1
  · rw [if_pos hs] at he
    simp at he
  · rw [if_neg hs] at he
    cases he
    refine ⟨?_, ?_⟩ <;> simp <;> omega

/-- lock_release preserves the weak lock invariant, on both branches. -/
theorem lockWeakInv_release {t : ThreadId} {s : Lock} (h : LockWeakInv s) :
    LockWeakInv (lock_release t s).1 := by
  obtain ⟨h1, h2⟩ := h
  unfold lock_release
  by_cases ho : s.curthread_with_lock ≠ some t
  · rw [if_pos ho]
    exact ⟨h1, h2⟩
  · push_neg at ho
    have hc : s.lock_counter ≠ 0 := by
      intro hcc
      rw [h1.mp hcc] at ho
      simp at ho
    rw [if_neg (by simp [ho])]
    by_cases hz : s.lock_counter - 1 = 0
    · rw [if_pos hz]
      exact ⟨by simp [hz], by simp [hz]⟩
    · rw [if_neg hz]
      refine ⟨?_, ?_⟩
      · simp [ho, hz]
      · simp
        omega

/-- After j of k releases by the owner of a lock held with counter k, the
owner and the held status persist; after all k releases the lock is back to
the free state. -/
theorem releaseN_spec (a : ThreadId) :
    ∀ (k : Nat) (s : Lock), LockInv s → s.curthread_with_lock = some a →
      s.lock_counter = (k : Int) →
      ((∀ j : Nat, j < k →
        (releaseN a j s).curthread_with_lock = some a ∧
        (releaseN a j s).status = 1 ∧
        (releaseN a j s).lock_counter = ((k - j : Nat) : Int)) ∧
      releaseN a k s =
        { status := 0, curthread_with_lock := none, lock_counter := 0 }) := by
  intro k
  induction k with
  | zero =>
      intro s h ho hc
      exact absurd (h.1.mp (by exact_mod_cast hc)) (by simp [ho])
  | succ k ih =>
      intro s h ho hc
      have hstat : s.status = 1 := h.2.2.2 (by simp [ho])
      cases k with
      | zero =>
          have hz : s.lock_counter - 1 = 0 := by rw [hc]; simp
          have hrel : (lock_release a s).1 =
              { status := 0, curthread_with_lock := none,
                lock_counter := 0 } := by
            simp [lock_release, ho, hz]
          refine ⟨?_, ?_⟩
          · intro j hj
            have hj0 : j = 0 := by omega
            subst hj0
            exact ⟨ho, hstat, by simpa using hc⟩
          · show releaseN a 1 s = _
            simp only [releaseN, hrel]
      | succ k2 =>
          have hz : ¬ (s.lock_counter - 1 = 0) := by
            rw [hc]; push_cast; omega
          have hrel : (lock_release a s).1 =
              { s with lock_counter := s.lock_counter - 1 } := by
            simp [lock_release, ho, hz]
          have h1 : LockInv { s with lock_counter := s.lock_counter - 1 } := by
            rw [← hrel]; exact lockInv_release h
          have hc1 : ({ s with lock_counter := s.lock_counter - 1 } :
              Lock).lock_counter = ((k2 + 1 : Nat) : Int) := by
            simp [hc]
          obtain ⟨ihj, ihk⟩ :=
            ih { s with lock_counter := s.lock_counter - 1 } h1 (by simp [ho])
              hc1
          refine ⟨?_, ?_⟩
          · intro j hj
            cases j with
            | zero => exact ⟨ho, hstat, by simpa using hc⟩
            | succ j2 =>
                have hjlt : j2 < k2 + 1 := by omega
                have hrw : releaseN a (j2 + 1) s =
                    releaseN a j2 { s with
                      lock_counter := s.lock_counter - 1 } := by
                  simp only [releaseN, hrel]
                rw [hrw]
                obtain ⟨p1, p2, p3⟩ := ihj j2 hjlt
                refine ⟨p1, p2, ?_⟩
                rw [p3]
                congr 1
                omega
          · have hrw : releaseN a (k2 + 1 + 1) s =
                releaseN a (k2 + 1) { s with
                  lock_counter := s.lock_counter - 1 } := by
              simp only [releaseN, hrel]
            rw [hrw, ihk]

/-- The cv_broadcast loop wakes exactly the queue, in order, and empties
it. -/
theorem cv_broadcast_loop_eq (q : List ThreadId) :
    cv_broadcast_loop q = (q, []) := by
  induction q with
  | nil => rfl
  | cons h rest ih => simp [cv_broadcast_loop, ih]

/-! ## Claim theorems -/

/-- C1: for every lock returned by lock_create and every sequence of
acquire and release operations, the invariant lock_counter = 0 iff
curthread_with_lock = none (with lock_counter nonnegative) holds at every
quiescent point: lock_create establishes it, every state reached by a run
of operations satisfies it, and each completed acquire (entry or
resumption) and each release (on both its branches) preserves it. -/
theorem C1_lock_invariant :
    LockWeakInv lock_create ∧
    (∀ ops : List LockOp, LockWeakInv (lock_run ops)) ∧
    (∀ (i : Bool) (t : ThreadId) (s s2 : Lock), LockWeakInv s →
      lock_acquire_entry i t s = AcqStep.done s2 → LockWeakInv s2) ∧
    (∀ (t : ThreadId) (s s2 : Lock), LockWeakInv s →
      lock_acquire_resume t s = AcqStep.done s2 → LockWeakInv s2) ∧
    (∀ (t : ThreadId) (s : Lock), LockWeakInv s →
      LockWeakInv (lock_release t s).1) := by
  refine ⟨by decide, ?_, ?_, ?_, ?_⟩
  · intro ops
    exact lockWeakInv_of_lockInv (lockInv_run ops)
  · intro i t s s2 h he
    exact lockWeakInv_acquire_entry h he
  · intro t s s2 h he
    exact lockWeakInv_acquire_resume h he
  · intro t s h
    exact lockWeakInv_release h

/-- Witness for C1: the release and acquire preservation clauses applied at
concrete states. -/
theorem C1_lock_invariant_witness :
    LockWeakInv (lock_release 0
      { status := 1, curthread_with_lock := some 0, lock_counter := 1 }).1 ∧
    LockWeakInv { status := 1, curthread_with_lock := some 5,
                  lock_counter := 1 } :=
  ⟨C1_lock_invariant.2.2.2.2 0
      { status := 1, curthread_with_lock := some 0, lock_counter := 1 }
      (by decide),
   C1_lock_invariant.2.2.1 false 5 lock_create
      { status := 1, curthread_with_lock := some 5, lock_counter := 1 }
      (by decide) (by decide)⟩

/-- C2: lock_acquire by thread t: when t already owns the lock the counter
is incremented by exactly one and the call completes without blocking,
owner and status unchanged; when another thread holds the lock the caller
blocks on the lock channel, re-checking the status on each resumption; and
once the lock is free the caller becomes owner with counter exactly 1. -/
theorem C2_lock_acquire (i : Bool) (t : ThreadId) (s : Lock)
    (h : LockInv s) :
    (s.curthread_with_lock = some t →
      lock_acquire_entry i t s =
        AcqStep.done { s with lock_counter := s.lock_counter + 1 }) ∧
    (s.curthread_with_lock ≠ some t → s.status = 1 →
      lock_acquire_entry i t s = AcqStep.blocked) ∧
    (s.status = 1 → lock_acquire_resume t s = AcqStep.blocked) ∧
    (s.curthread_with_lock ≠ some t → s.status ≠ 1 →
      lock_acquire_entry i t s =
        AcqStep.done { status := 1, curthread_with_lock := some t,
                       lock_counter := 1 }) ∧
    (s.status ≠ 1 →
      lock_acquire_resume t s =
        AcqStep.done { status := 1, curthread_with_lock := some t,
                       lock_counter := 1 }) := by
  have hfree : s.status ≠ 1 → s.lock_counter = 0 := by
    intro hs
    have hn : s.curthread_with_lock = none := by
      by_contra hcc
      exact hs (h.2.2.2 hcc)
    exact h.1.mpr hn
  refine ⟨?_, ?_, ?_, ?_, ?_⟩
  · intro ho
    unfold lock_acquire_entry
    rw [if_pos ho]
  · intro ho hs
    unfold lock_acquire_entry lock_acquire_resume
    rw [if_neg ho, if_pos hs]
  · intro hs
    unfold lock_acquire_resume
    rw [if_pos hs]
  · intro ho hs
    unfold lock_acquire_entry lock_acquire_resume
    rw [if_neg ho, if_neg hs, hfree hs]
    norm_num
  · intro hs
    unfold lock_acquire_resume
    rw [if_neg hs, hfree hs]
    norm_num

/-- Witness for C2: the reentrant clause and the free-lock clause applied
at concrete states. -/
theorem C2_lock_acquire_witness :
    lock_acquire_entry false 7
      { status := 1, curthread_with_lock := some 7, lock_counter := 2 } =
      AcqStep.done { status := 1, curthread_with_lock := some 7,
                     lock_counter := 3 } ∧
    lock_acquire_entry false 3 lock_create =
      AcqStep.done { status := 1, curthread_with_lock := some 3,
                     lock_counter := 1 } :=
  ⟨by simpa using
      (C2_lock_acquire false 7
        { status := 1, curthread_with_lock := some 7, lock_counter := 2 }
        (by decide)).1 (by decide),
   (C2_lock_acquire false 3 lock_create (by decide)).2.2.2.1 (by decide)
      (by decide)⟩

/-- C3: lock_release by the owner decrements the counter by exactly one;
when it reaches 0 the owner is cleared, the lock freed, and the lock
channel woken; when it stays positive the caller stays owner, the lock
stays held, and no wakeup happens.  A thread that acquired k times keeps
ownership through the first k-1 releases, during which a different
thread's acquire blocks; the k-th release frees the lock. -/
theorem C3_lock_release :
    (∀ (t : ThreadId) (s : Lock), LockInv s →
      s.curthread_with_lock = some t →
      ((lock_release t s).1.lock_counter = s.lock_counter - 1 ∧
       (s.lock_counter = 1 →
         lock_release t s =
           ({ status := 0, curthread_with_lock := none, lock_counter := 0 },
            true)) ∧
       (1 < s.lock_counter →
         lock_release t s =
           ({ s with lock_counter := s.lock_counter - 1 }, false)))) ∧
    (∀ (a b : ThreadId) (k : Nat) (s : Lock), LockInv s →
      s.curthread_with_lock = some a → s.lock_counter = (k : Int) → b ≠ a →
      ((∀ j : Nat, j < k →
         lock_acquire_entry false b (releaseN a j s) = AcqStep.blocked) ∧
       releaseN a k s =
         { status := 0, curthread_with_lock := none, lock_counter := 0 })) := by
  constructor
  · intro t s h ho
    have hne : ¬ s.curthread_with_lock ≠ some t := by simp [ho]
    refine ⟨?_, ?_, ?_⟩
    · unfold lock_release
      rw [if_neg hne]
      by_cases hz : s.lock_counter - 1 = 0
      · rw [if_pos hz]
      · rw [if_neg hz]
    · intro hc
      unfold lock_release
      rw [if_neg hne, if_pos (by omega), hc]
      norm_num
    · intro hc
      unfold lock_release
      rw [if_neg hne, if_neg (by omega)]
  · intro a b k s h ho hc hba
    obtain ⟨hj, hk⟩ := releaseN_spec a k s h ho hc
    refine ⟨?_, hk⟩
    intro j hjk
    obtain ⟨p1, p2, _⟩ := hj j hjk
    unfold lock_acquire_entry lock_acquire_resume
    rw [if_neg (by simp [p1]; exact fun hab => hba hab.symm), if_pos p2]

/-- Witness for C3: a final release of a singly-held lock, and the double
acquire and release scenario with a blocked second thread, at concrete
states. -/
theorem C3_lock_release_witness :
    lock_release 2
      { status := 1, curthread_with_lock := some 2, lock_counter := 1 } =
      ({ status := 0, curthread_with_lock := none, lock_counter := 0 },
       true) ∧
    lock_acquire_entry false 1
      (releaseN 0 1
        { status := 1, curthread_with_lock := some 0, lock_counter := 2 }) =
      AcqStep.blocked ∧
    releaseN 0 2
      { status := 1, curthread_with_lock := some 0, lock_counter := 2 } =
      { status := 0, curthread_with_lock := none, lock_counter := 0 } :=
  ⟨((C3_lock_release.1 2
      { status := 1, curthread_with_lock := some 2, lock_counter := 1 }
      (by decide) (by decide)).2.1 (by decide)),
   ((C3_lock_release.2 0 1 2
      { status := 1, curthread_with_lock := some 0, lock_counter := 2 }
      (by decide) (by decide) (by decide) (by decide)).1 1 (by decide)),
   ((C3_lock_release.2 0 1 2
      { status := 1, curthread_with_lock := some 0, lock_counter := 2 }
      (by decide) (by decide) (by decide) (by decide)).2)⟩

/-- C4: lock_release by a thread that is not the owner, including on a
free lock, returns without a fatal error, leaves every lock field
unchanged, and wakes no thread. -/
theorem C4_lock_release_nonowner (t : ThreadId) (s : Lock)
    (h : s.curthread_with_lock ≠ some t) :
    lock_release t s = (s, false) := by
  unfold lock_release
  rw [if_pos h]

/-- Witness for C4: a non-owner release on a held lock and on a free
lock. -/
theorem C4_lock_release_nonowner_witness :
    lock_release 1
      { status := 1, curthread_with_lock := some 0, lock_counter := 3 } =
      ({ status := 1, curthread_with_lock := some 0, lock_counter := 3 },
       false) ∧
    lock_release 0 lock_create = (lock_create, false) :=
  ⟨C4_lock_release_nonowner 1
      { status := 1, curthread_with_lock := some 0, lock_counter := 3 }
      (by decide),
   C4_lock_release_nonowner 0 lock_create (by decide)⟩

/-- Helper: from a nonnegative count, every run of P and V attempts
completes without a fatal assert and keeps the count nonnegative. -/
theorem sem_run_nonneg :
    ∀ (ops : List SemOp) (s : SemState), 0 ≤ s.count →
      ∃ s2, sem_run s ops = some s2 ∧ 0 ≤ s2.count := by
  intro ops
  induction ops with
  | nil =>
      intro s h
      exact ⟨s, rfl, h⟩
  | cons op rest ih =>
      intro s h
      cases op with
      | pOp t =>
          by_cases hz : s.count = 0
          · have hstep : P_step false t s =
                PStep.blocked { s with sleepers := s.sleepers ++ [t] } := by
              simp [P_step, P_resume, hz]
            obtain ⟨s2, hrun, h2⟩ :=
              ih { s with sleepers := s.sleepers ++ [t] } (by simpa using h)
            exact ⟨s2, by simp [sem_run, hstep, hrun], h2⟩
          · have hpos : 0 < s.count := lt_of_le_of_ne h (Ne.symm hz)
            have hstep : P_step false t s =
                PStep.returned { s with count := s.count - 1 } := by
              simp [P_step, P_resume, hz, hpos]
            obtain ⟨s2, hrun, h2⟩ :=
              ih { s with count := s.count - 1 } (by simp; omega)
            exact ⟨s2, by simp [sem_run, hstep, hrun], h2⟩
      | vOp =>
          have hstep : V_step s =
              some { count := s.count + 1, sleepers := [] } := by
            unfold V_step
            rw [if_pos (by omega)]
          obtain ⟨s2, hrun, h2⟩ :=
            ih { count := s.count + 1, sleepers := [] } (by simp; omega)
          exact ⟨s2, by simp [sem_run, hstep, hrun], h2⟩

/-- C5: a semaphore created with a nonnegative initial count keeps a
nonnegative count through every sequence of P and V attempts; P returns
only having observed a positive count at the instant of its own decrement,
which lowers the count by exactly one; and V only increments. -/
theorem C5_sem_invariant :
    (∀ n : Int, 0 ≤ n → sem_create n = some { count := n, sleepers := [] }) ∧
    (∀ (n : Int) (ops : List SemOp) (s0 : SemState),
      sem_create n = some s0 →
      ∃ s2, sem_run s0 ops = some s2 ∧ 0 ≤ s2.count) ∧
    (∀ (i : Bool) (t : ThreadId) (s s2 : SemState),
      P_step i t s = PStep.returned s2 →
      0 < s.count ∧ s2.count = s.count - 1) ∧
    (∀ s s2 : SemState, V_step s = some s2 → s2.count = s.count + 1) := by
  refine ⟨?_, ?_, ?_, ?_⟩
  · intro n hn
    unfold sem_create
    rw [if_pos hn]
  · intro n ops s0 h0
    unfold sem_create at h0
    by_cases hn : 0 ≤ n
    · rw [if_pos hn] at h0
      cases h0
      exact sem_run_nonneg ops _ hn
    · rw [if_neg hn] at h0
      simp at h0
  · intro i t s s2 he
    cases i with
    | true => simp [P_step] at he
    | false =>
        simp only [P_step, Bool.false_eq_true, if_false] at he
        unfold P_resume at he
        by_cases hz : s.count = 0
        · rw [if_pos hz] at he
          simp at he
        · rw [if_neg hz] at he
          by_cases hpos : 0 < s.count
          · rw [if_pos hpos] at he
            cases he
            exact ⟨hpos, by simp⟩
          · rw [if_neg hpos] at he
            simp at he
  · intro s s2 he
    unfold V_step at he
    by_cases hpos : 0 < s.count + 1
    · rw [if_pos hpos] at he
      cases he
      simp
    · rw [if_neg hpos] at he
      simp at he

/-- Witness for C5: creation, a three-operation run, and a returning P, at
concrete inputs. -/
theorem C5_sem_invariant_witness :
    sem_create 3 = some { count := 3, sleepers := [] } ∧
    (∃ s2, sem_run { count := 2, sleepers := [] }
        [SemOp.pOp 0, SemOp.vOp, SemOp.pOp 1] = some s2 ∧ 0 ≤ s2.count) ∧
    (0 < ({ count := 1, sleepers := [] } : SemState).count ∧
      ({ count := 0, sleepers := [] } : SemState).count =
        ({ count := 1, sleepers := [] } : SemState).count - 1) :=
  ⟨C5_sem_invariant.1 3 (by decide),
   C5_sem_invariant.2.1 2 [SemOp.pOp 0, SemOp.vOp, SemOp.pOp 1]
     { count := 2, sleepers := [] } (by decide),
   C5_sem_invariant.2.2.1 false 0 { count := 1, sleepers := [] }
     { count := 0, sleepers := [] } (by decide)⟩

/-- C6: V increments the count by exactly one and then wakes every thread
currently sleeping on the semaphore channel (a broadcast, not a hand-off);
P sleeps on the semaphore channel while the count is 0, re-checks the
condition on each resumption, and only after observing a positive count
decrements it by exactly one and returns. -/
theorem C6_sem_PV (t : ThreadId) (s : SemState) (h : 0 ≤ s.count) :
    V_step s = some { count := s.count + 1, sleepers := [] } ∧
    (s.count = 0 →
      P_step false t s =
        PStep.blocked { s with sleepers := s.sleepers ++ [t] } ∧
      P_resume t s =
        PStep.blocked { s with sleepers := s.sleepers ++ [t] }) ∧
    (0 < s.count →
      P_step false t s =
        PStep.returned { s with count := s.count - 1 } ∧
      P_resume t s =
        PStep.returned { s with count := s.count - 1 }) := by
  refine ⟨?_, ?_, ?_⟩
  · unfold V_step
    rw [if_pos (by omega)]
  · intro hz
    constructor <;> simp [P_step, P_resume, hz]
  · intro hpos
    have hz : ¬ s.count = 0 := by omega
    constructor <;> simp [P_step, P_resume, hz, hpos]

/-- Witness for C6: a V waking a sleeper, a blocked P appending itself to
the channel, and a returning P, at concrete states. -/
theorem C6_sem_PV_witness :
    V_step { count := 0, sleepers := [4] } =
      some { count := 1, sleepers := [] } ∧
    P_step false 9 { count := 0, sleepers := [4] } =
      PStep.blocked { count := 0, sleepers := [4, 9] } ∧
    P_step false 9 { count := 2, sleepers := [] } =
      PStep.returned { count := 1, sleepers := [] } :=
  ⟨by simpa using (C6_sem_PV 9 { count := 0, sleepers := [4] } (by decide)).1,
   by simpa using
     ((C6_sem_PV 9 { count := 0, sleepers := [4] } (by decide)).2.1
       (by decide)).1,
   by simpa using
     ((C6_sem_PV 9 { count := 2, sleepers := [] } (by decide)).2.2
       (by decide)).1⟩

/-- C7: cv_signal requires holding the paired lock (fatal otherwise); on a
non-empty queue it removes exactly the head, the oldest waiter, and wakes
exactly that thread; cv_wait enqueues at the tail, so waiters enqueued in
order are woken by successive signals in that same order; on an empty
queue cv_signal is a no-op that wakes nobody and leaves the queue
unchanged. -/
theorem C7_cv_signal :
    (∀ (t : ThreadId) (lk : Lock) (cv : CV), lock_do_i_hold t lk = false →
      cv_signal t lk cv = none) ∧
    (∀ (t : ThreadId) (lk : Lock) (cv : CV), lock_do_i_hold t lk = true →
      cv.q = [] → cv_signal t lk cv = some (cv, none)) ∧
    (∀ (t : ThreadId) (lk : Lock) (u : ThreadId) (rest : List ThreadId),
      lock_do_i_hold t lk = true →
      cv_signal t lk { q := u :: rest } = some ({ q := rest }, some u)) ∧
    (∀ (i : Bool) (t : ThreadId) (r : Int) (lk : Lock) (cv cv2 : CV)
      (lk2 : Lock) (w : Bool),
      cv_wait_enter i t r lk cv = CvWaitStep.sleeping cv2 lk2 w →
      cv2.q = cv.q ++ [t]) ∧
    (∀ (t : ThreadId) (lk : Lock) (t1 t2 t3 : ThreadId),
      lock_do_i_hold t lk = true →
      cv_signal t lk { q := [t1, t2, t3] } =
        some ({ q := [t2, t3] }, some t1) ∧
      cv_signal t lk { q := [t2, t3] } = some ({ q := [t3] }, some t2) ∧
      cv_signal t lk { q := [t3] } = some ({ q := [] }, some t3)) := by
  refine ⟨?_, ?_, ?_, ?_, ?_⟩
  · intro t lk cv hh
    simp [cv_signal, hh]
  · intro t lk cv hh hq
    cases cv
    subst hq
    simp [cv_signal, hh]
  · intro t lk u rest hh
    simp [cv_signal, hh]
  · intro i t r lk cv cv2 lk2 w he
    unfold cv_wait_enter at he
    by_cases hh : lock_do_i_hold t lk = true
    · rw [if_neg (by simp [hh])] at he
      by_cases hr : r ≠ 0
      · rw [if_pos hr] at he
        simp at he
      · rw [if_neg hr] at he
        cases he
        simp
    · rw [if_pos (by simpa using hh)] at he
      simp at he
  · intro t lk t1 t2 t3 hh
    refine ⟨?_, ?_, ?_⟩ <;> simp [cv_signal, hh]

/-- Witness for C7: a signal without the lock, on an empty queue, on a
non-empty queue, a wait enqueue, and the three-waiter FIFO scenario, at
concrete inputs. -/
theorem C7_cv_signal_witness :
    cv_signal 1 { status := 1, curthread_with_lock := some 0,
                  lock_counter := 1 } { q := [5] } = none ∧
    cv_signal 0 { status := 1, curthread_with_lock := some 0,
                  lock_counter := 1 } { q := [] } =
      some ({ q := [] }, none) ∧
    cv_signal 0 { status := 1, curthread_with_lock := some 0,
                  lock_counter := 1 } { q := [7, 8] } =
      some ({ q := [8] }, some 7) ∧
    ({ q := [9, 2] } : CV).q = ({ q := [9] } : CV).q ++ [2] ∧
    cv_signal 0 { status := 1, curthread_with_lock := some 0,
                  lock_counter := 1 } { q := [4, 5, 6] } =
      some ({ q := [5, 6] }, some 4) :=
  ⟨C7_cv_signal.1 1
     { status := 1, curthread_with_lock := some 0, lock_counter := 1 }
     { q := [5] } (by decide),
   C7_cv_signal.2.1 0
     { status := 1, curthread_with_lock := some 0, lock_counter := 1 }
     { q := [] } (by decide) rfl,
   C7_cv_signal.2.2.1 0
     { status := 1, curthread_with_lock := some 0, lock_counter := 1 }
     7 [8] (by decide),
   C7_cv_signal.2.2.2.1 false 2 0
     { status := 1, curthread_with_lock := some 2, lock_counter := 1 }
     { q := [9] } { q := [9, 2] } lock_create true (by decide),
   (C7_cv_signal.2.2.2.2 0
     { status := 1, curthread_with_lock := some 0, lock_counter := 1 }
     4 5 6 (by decide)).1⟩

/-- C8: cv_broadcast requires holding the paired lock (fatal otherwise);
it repeatedly removes and wakes the head of the queue until empty, so all
waiters are woken individually in FIFO order and the queue is empty
afterwards; a subsequent cv_signal on the emptied queue is a no-op. -/
theorem C8_cv_broadcast :
    (∀ (t : ThreadId) (lk : Lock) (cv : CV), lock_do_i_hold t lk = false →
      cv_broadcast t lk cv = none) ∧
    (∀ (t : ThreadId) (lk : Lock) (cv : CV), lock_do_i_hold t lk = true →
      cv_broadcast t lk cv = some ({ q := [] }, cv.q) ∧
      cv_signal t lk { q := [] } = some ({ q := [] }, none)) := by
  constructor
  · intro t lk cv hh
    simp [cv_broadcast, hh]
  · intro t lk cv hh
    constructor
    · simp [cv_broadcast, hh, cv_broadcast_loop_eq]
    · simp [cv_signal, hh]

/-- Witness for C8: a broadcast over three waiters and the no-op signal
after it, at concrete inputs. -/
theorem C8_cv_broadcast_witness :
    cv_broadcast 3 { status := 1, curthread_with_lock := some 0,
                     lock_counter := 1 } { q := [1, 2] } = none ∧
    cv_broadcast 0 { status := 1, curthread_with_lock := some 0,
                     lock_counter := 1 } { q := [1, 2, 3] } =
      some ({ q := [] }, [1, 2, 3]) ∧
    cv_signal 0 { status := 1, curthread_with_lock := some 0,
                  lock_counter := 1 } { q := [] } =
      some ({ q := [] }, none) :=
  ⟨C8_cv_broadcast.1 3
     { status := 1, curthread_with_lock := some 0, lock_counter := 1 }
     { q := [1, 2] } (by decide),
   (C8_cv_broadcast.2 0
     { status := 1, curthread_with_lock := some 0, lock_counter := 1 }
     { q := [1, 2, 3] } (by decide)).1,
   (C8_cv_broadcast.2 0
     { status := 1, curthread_with_lock := some 0, lock_counter := 1 }
     { q := [1, 2, 3] } (by decide)).2⟩

/-- C9 counterexample: lock_acquire and cv_wait called from interrupt
context (in_interrupt set) do not halt: lock_acquire on a free lock
completes and installs the caller as owner, and cv_wait by the lock holder
enqueues, releases the lock and goes to sleep, exactly as from normal
context.  Only P checks the in_interrupt flag. -/
theorem C9_interrupt_counterexample :
    lock_acquire_entry true 0 lock_create =
      AcqStep.done { status := 1, curthread_with_lock := some 0,
                     lock_counter := 1 } ∧
    cv_wait_enter true 0 0
      { status := 1, curthread_with_lock := some 0, lock_counter := 1 }
      { q := [] } =
      CvWaitStep.sleeping { q := [0] } lock_create true ∧
    P_step true 0 { count := 1, sleepers := [] } = PStep.fatal := by
  refine ⟨by decide, by decide, by decide⟩

/-- C9 amended: P fails with a fatal assertion when called from interrupt
context, before touching any state; lock_acquire and cv_wait perform no
in-interrupt check at all: their behaviour is identical whatever the
in_interrupt flag. -/
theorem C9_interrupt_check :
    (∀ (t : ThreadId) (s : SemState), P_step true t s = PStep.fatal) ∧
    (∀ (i : Bool) (t : ThreadId) (s : Lock),
      lock_acquire_entry i t s = lock_acquire_entry false t s) ∧
    (∀ (i : Bool) (t : ThreadId) (r : Int) (lk : Lock) (cv : CV),
      cv_wait_enter i t r lk cv = cv_wait_enter false t r lk cv) := by
  refine ⟨?_, ?_, ?_⟩
  · intro t s
    simp [P_step]
  · intro i t s
    rfl
  · intro i t r lk cv
    rfl

/-- C10: when q_addtail reports a nonzero result, cv_wait halts with a
fatal assertion instead of returning or sleeping; consequently whenever
cv_wait releases the lock and goes to sleep, the caller has been appended
to the wait queue. -/
theorem C10_cv_wait_addtail :
    (∀ (i : Bool) (t : ThreadId) (r : Int) (lk : Lock) (cv : CV), r ≠ 0 →
      cv_wait_enter i t r lk cv = CvWaitStep.fatal) ∧
    (∀ (i : Bool) (t : ThreadId) (r : Int) (lk : Lock) (cv cv2 : CV)
      (lk2 : Lock) (w : Bool),
      cv_wait_enter i t r lk cv = CvWaitStep.sleeping cv2 lk2 w →
      cv2.q = cv.q ++ [t] ∧ t ∈ cv2.q) := by
  constructor
  · intro i t r lk cv hr
    unfold cv_wait_enter
    by_cases hh : lock_do_i_hold t lk = true
    · rw [if_neg (by simp [hh]), if_pos hr]
    · rw [if_pos (by simpa using hh)]
  · intro i t r lk cv cv2 lk2 w he
    unfold cv_wait_enter at he
    by_cases hh : lock_do_i_hold t lk = true
    · rw [if_neg (by simp [hh])] at he
      by_cases hr : r ≠ 0
      · rw [if_pos hr] at he
        simp at he
      · rw [if_neg hr] at he
        cases he
        simp
    · rw [if_pos (by simpa using hh)] at he
      simp at he

/-- Witness for C10: a failed enqueue halting cv_wait, and a successful
wait showing the caller enqueued, at concrete inputs. -/
theorem C10_cv_wait_addtail_witness :
    cv_wait_enter false 0 5
      { status := 1, curthread_with_lock := some 0, lock_counter := 1 }
      { q := [] } = CvWaitStep.fatal ∧
    (({ q := [3, 1] } : CV).q = ({ q := [3] } : CV).q ++ [1] ∧
      (1 : ThreadId) ∈ ({ q := [3, 1] } : CV).q) :=
  ⟨C10_cv_wait_addtail.1 false 0 5
     { status := 1, curthread_with_lock := some 0, lock_counter := 1 }
     { q := [] } (by decide),
   C10_cv_wait_addtail.2 false 1 0
     { status := 1, curthread_with_lock := some 1, lock_counter := 1 }
     { q := [3] } { q := [3, 1] } lock_create true (by decide)⟩

end Synch
